import Mathlib

/-!
Verification of the request-processing engine of the `api-mocked` server.

The definitions below are a shallow embedding of the Go source:

* `execOrderStep` embeds `execOrder` (handler.http.go): the ordering
  sequencer over the shared `uint64` counter and the in-place shuffled
  response slice;
* `fisherYates` embeds `math/rand.Shuffle`'s swap loop as invoked by the
  `unordered` branch;
* `decodeJWT` / `checkRequestJWT` embed jwt.go's inbound-token decoding and
  the JWT-checking middleware (handler.cors.go);
* `marshalJWTPayload` / `marshalJWT` embed the outbound JWT encoder
  (jwt.go `marshalJWT`), including its injection of the signing key into
  the payload map;
* `checkRequestHeader` embeds the required-header filter middleware
  (handler.cors.go);
* `serveAux` / `serveMulti` embed the multi-candidate retry protocol
  (`checkRetries`, `Ext404Error.ErrorRetryRequestWriter`, `WriteError`);
* `reloadIteration` embeds one pass of the `run` loop (main.go) with the
  `reloadSliceManager` snapshot fallback, and `responseHeaders` the
  `x-reload-error` middleware (http.go / reload.go);
* `execVarCtxRequestBody` embeds the POST-body variable gathering of
  `execVarCtxRequest` (handler.http.go) with its `(2^20)*10` byte limit.

Machine integers: the shared counter is a Go `uint64`; we model it as a
`Nat` reduced modulo `2 ^ 64` at each increment, and Go's `int(order)`
conversion (to `int64`) plus Go's truncating `%` are modeled explicitly
(`toInt64`, `Int.tmod`), so that out-of-range indices and divisions by
zero appear as an explicit `panicked` outcome exactly where the Go runtime
would panic.
-/

/-- Go runtime outcome of the selection expression
`resps[int(order)%len(resps)]`: either an element was selected, or the Go
runtime panicked (integer division by zero on an empty slice, invalid
`Int63n` argument, or a negative index). -/
inductive SelOutcome (α : Type) where
  | selected : α → SelOutcome α
  | panicked : SelOutcome α
deriving DecidableEq, Repr

/-- The modulus of Go's `uint64`. -/
def U64 : Nat := 2 ^ 64

/-- Go's conversion `int(order)` of a `uint64` value to a (64-bit) `int`:
values at or above `2 ^ 63` reinterpret as negative. -/
def toInt64 (n : Nat) : Int := if n < 2 ^ 63 then (n : Int) else (n : Int) - (2 ^ 64 : Int)

/-- The indexing expression `resps[int(order)%len(resps)]` from
`execOrder` (handler.http.go).  Go's `%` truncates toward zero
(`Int.tmod`); an empty slice is a division-by-zero panic and a negative
remainder is an index-out-of-range panic. -/
def goIndex {α : Type} (l : List α) (order : Nat) : SelOutcome α :=
  if h : 0 < l.length ∧ 0 ≤ Int.tmod (toInt64 order) (l.length : Int) ∧
      (Int.tmod (toInt64 order) (l.length : Int)).toNat < l.length then
    .selected (l.get ⟨(Int.tmod (toInt64 order) (l.length : Int)).toNat, h.2.2⟩)
  else .panicked

/-- The condition `int(order)%len(resps) == 0` guarding the reshuffle in
the `unordered` branch (only evaluated on a non-empty slice). -/
def goTmodZero (order : Nat) (n : Nat) : Bool := Int.tmod (toInt64 order) (n : Int) = 0

/-- Swap of two positions of a list, as performed by the swap callback
`resps[i], resps[j] = resps[j], resps[i]` handed to `rand.Shuffle`. -/
def lswap {α : Type} (l : List α) (i j : Nat) : List α :=
  if h : i < l.length ∧ j < l.length then
    (l.set i (l.get ⟨j, h.2⟩)).set j (l.get ⟨i, h.1⟩)
  else l

/-- The loop of `math/rand.Shuffle`: for `i` from `n-1` down to `1`,
draw `j` uniform in `[0, i+1)` and swap positions `i` and `j`.  The
random draws are supplied by `d`; reducing `d (i+1)` modulo `i+2` ranges
over exactly the values the generator can produce. -/
def fyGo {α : Type} (d : Nat → Nat) : Nat → List α → List α
  | 0, l => l
  | i + 1, l => fyGo d i (lswap l (i + 1) (d (i + 1) % (i + 2)))

/-- The call `rand.Shuffle(len(resps), swap)` as made by `execOrder`'s
`unordered` branch. -/
def fisherYates {α : Type} (d : Nat → Nat) (l : List α) : List α :=
  fyGo d (l.length - 1) l

/-- The sequencer state owned by one `RequestHTTP` descriptor: the shared
`uint64` counter (`idx` in `httpHandler`) and the response slice, which
the `unordered` branch shuffles in place. -/
structure SeqState (α : Type) where
  idx : Nat
  resps : List α
deriving DecidableEq, Repr

/-- One call of `execOrder` (handler.http.go, lines 269-286), the
ordering sequencer.  `policy` is `st.req.Order`; `d` supplies this call's
random draws (`Int63n` for `random`, the shuffle draws for `unordered`).
`random`: `order = uint64(rand.Int63n(int64(len(resps)*2)))`, panicking
when the list is empty (`Int63n(0)` panics); `unordered`: increment the
counter, reshuffle in place whenever `int(order) % len(resps) == 0`, then
index; default (`ordered`): increment the counter and index. -/
def execOrderRandom {α : Type} (d : Nat → Nat) (st : SeqState α) :
    SelOutcome α × SeqState α :=
  if st.resps.length = 0 then (.panicked, st)
  else (goIndex st.resps (d 0 % (2 * st.resps.length)), st)

def execOrderUnordered {α : Type} (d : Nat → Nat) (st : SeqState α) :
    SelOutcome α × SeqState α :=
  if st.resps.length = 0 then (.panicked, ⟨(st.idx + 1) % U64, st.resps⟩)
  else
    (goIndex
      (if goTmodZero (((st.idx + 1) % U64 + (U64 - 1)) % U64) st.resps.length then
        fisherYates d st.resps
      else st.resps)
      (((st.idx + 1) % U64 + (U64 - 1)) % U64),
     ⟨(st.idx + 1) % U64,
      if goTmodZero (((st.idx + 1) % U64 + (U64 - 1)) % U64) st.resps.length then
        fisherYates d st.resps
      else st.resps⟩)

def execOrderDefault {α : Type} (_d : Nat → Nat) (st : SeqState α) :
    SelOutcome α × SeqState α :=
  (goIndex st.resps (((st.idx + 1) % U64 + (U64 - 1)) % U64),
   ⟨(st.idx + 1) % U64, st.resps⟩)

def execOrderStep {α : Type} (policy : String) (d : Nat → Nat) (st : SeqState α) :
    SelOutcome α × SeqState α :=
  match policy with
  | "random" => execOrderRandom d st
  | "unordered" => execOrderUnordered d st
  | _ => execOrderDefault d st

/-- The sequencer state after `k` calls; `ds k` supplies the draws
consumed by call number `k`. -/
def stateAfter {α : Type} (policy : String) (ds : Nat → Nat → Nat) (st : SeqState α) :
    Nat → SeqState α
  | 0 => st
  | k + 1 => (execOrderStep policy (ds k) (stateAfter policy ds st k)).2

/-- The outcome of call number `k` (counted from 0). -/
def callAt {α : Type} (policy : String) (ds : Nat → Nat → Nat) (st : SeqState α)
    (k : Nat) : SelOutcome α :=
  (execOrderStep policy (ds k) (stateAfter policy ds st k)).1

/-- The outcomes of the first `n` calls, in order. -/
def callList {α : Type} (policy : String) (ds : Nat → Nat → Nat) (st : SeqState α)
    (n : Nat) : List (SelOutcome α) :=
  (List.range n).map (callAt policy ds st)

theorem lswap_cons_perm {α : Type} :
    ∀ (t : List α) (m : Nat) (hm : m < t.length) (a : α),
      List.Perm (t.get ⟨m, hm⟩ :: t.set m a) (a :: t) := by
  intro t
  induction t with
  | nil => intro m hm a; simp at hm
  | cons c t' ih =>
      intro m hm a
      cases m with
      | zero => simpa using List.Perm.swap a c t'
      | succ k =>
          have hk : k < t'.length := by simpa using hm
          have h1 : List.Perm (t'.get ⟨k, hk⟩ :: c :: t'.set k a)
              (c :: t'.get ⟨k, hk⟩ :: t'.set k a) := List.Perm.swap _ _ _
          have h2 : List.Perm (c :: t'.get ⟨k, hk⟩ :: t'.set k a) (c :: a :: t') :=
            List.Perm.cons c (ih k hk a)
          have h3 : List.Perm (c :: a :: t') (a :: c :: t') := List.Perm.swap _ _ _
          simpa using (h1.trans h2).trans h3

theorem set_set_swap_perm {α : Type} :
    ∀ (l : List α) (i j : Nat) (hi : i < l.length) (hj : j < l.length),
      List.Perm ((l.set i (l.get ⟨j, hj⟩)).set j (l.get ⟨i, hi⟩)) l := by
  intro l
  induction l with
  | nil => intro i j hi hj; simp at hi
  | cons a t ih =>
      intro i j hi hj
      cases i with
      | zero =>
          cases j with
          | zero => simp
          | succ m =>
              have hm : m < t.length := by simpa using hj
              simpa using lswap_cons_perm t m hm a
      | succ n =>
          cases j with
          | zero =>
              have hn : n < t.length := by simpa using hi
              simpa using lswap_cons_perm t n hn a
          | succ m =>
              have hn : n < t.length := by simpa using hi
              have hm : m < t.length := by simpa using hj
              simpa using List.Perm.cons a (ih n m hn hm)

theorem lswap_perm {α : Type} (l : List α) (i j : Nat) : List.Perm (lswap l i j) l := by
  unfold lswap
  split
  · next h => exact set_set_swap_perm l i j h.1 h.2
  · exact List.Perm.refl l

theorem fyGo_perm {α : Type} (d : Nat → Nat) :
    ∀ (i : Nat) (l : List α), List.Perm (fyGo d i l) l := by
  intro i
  induction i with
  | zero => intro l; simp [fyGo]
  | succ k ih =>
      intro l
      exact (ih (lswap l (k + 1) (d (k + 1) % (k + 2)))).trans (lswap_perm l _ _)

theorem fisherYates_perm {α : Type} (d : Nat → Nat) (l : List α) :
    List.Perm (fisherYates d l) l :=
  fyGo_perm d (l.length - 1) l

theorem fisherYates_length {α : Type} (d : Nat → Nat) (l : List α) :
    (fisherYates d l).length = l.length :=
  (fisherYates_perm d l).length_eq

theorem toInt64_small {n : Nat} (h : n < 2 ^ 63) : toInt64 n = (n : Int) := by
  unfold toInt64
  exact if_pos h

theorem tmod_natCast_small {o n : Nat} (ho : o < 2 ^ 63) :
    Int.tmod (toInt64 o) (n : Int) = ((o % n : Nat) : Int) := by
  rw [toInt64_small ho]
  exact_mod_cast Int.ofNat_tmod o n

theorem goIndex_small {α : Type} (l : List α) (o : Nat) (ho : o < 2 ^ 63)
    (hl : 0 < l.length) (hm : o % l.length < l.length) :
    goIndex l o = .selected (l.get ⟨o % l.length, hm⟩) := by
  have htm := tmod_natCast_small (n := l.length) ho
  unfold goIndex
  rw [dif_pos ⟨hl, by rw [htm]; exact Int.natCast_nonneg _,
    by rw [htm]; simpa [Int.toNat_natCast] using hm⟩]
  simp only [htm, Int.toNat_natCast, List.get_eq_getElem]

theorem goTmodZero_small {o n : Nat} (ho : o < 2 ^ 63) :
    goTmodZero o n = true ↔ o % n = 0 := by
  have htm := tmod_natCast_small (n := n) ho
  simp only [goTmodZero, htm, decide_eq_true_eq, Int.natCast_eq_zero]

theorem uintOrder_eq (i : Nat) (hi : i < U64) :
    ((i + 1) % U64 + (U64 - 1)) % U64 = i := by
  have hU : U64 = 18446744073709551616 := by norm_num [U64]
  rw [hU] at hi ⊢
  omega

theorem uintOrder_eq2 (i : Nat) (hi : i + 1 < U64) : (i + 1 + (U64 - 1)) % U64 = i := by
  have hU : U64 = 18446744073709551616 := by norm_num [U64]
  rw [hU] at hi ⊢
  omega

theorem execOrderStep_default {α : Type} (d : Nat → Nat) (st : SeqState α) :
    execOrderStep "ordered" d st =
      (goIndex st.resps (((st.idx + 1) % U64 + (U64 - 1)) % U64),
        ⟨(st.idx + 1) % U64, st.resps⟩) := rfl

theorem execOrderUnordered_nonempty {α : Type} (d : Nat → Nat) (i : Nat) (l' : List α)
    (hne : l'.length ≠ 0) (hi : i + 1 < U64) :
    execOrderUnordered d ⟨i, l'⟩ =
      (goIndex (if goTmodZero i l'.length then fisherYates d l' else l') i,
       ⟨i + 1, if goTmodZero i l'.length then fisherYates d l' else l'⟩) := by
  have h1 : (i + 1) % U64 = i + 1 := Nat.mod_eq_of_lt hi
  unfold execOrderUnordered
  rw [if_neg hne]
  rw [h1, uintOrder_eq2 i hi]

theorem execOrderStep_unordered_nonempty {α : Type} (d : Nat → Nat) (i : Nat)
    (l' : List α) (hne : l'.length ≠ 0) (hi : i + 1 < U64) :
    execOrderStep "unordered" d ⟨i, l'⟩ =
      (goIndex (if goTmodZero i l'.length then fisherYates d l' else l') i,
       ⟨i + 1, if goTmodZero i l'.length then fisherYates d l' else l'⟩) :=
  execOrderUnordered_nonempty d i l' hne hi

theorem stateAfter_ordered {α : Type} (resps : List α) (ds : Nat → Nat → Nat) :
    ∀ k, stateAfter "ordered" ds ⟨0, resps⟩ k = ⟨k % U64, resps⟩ := by
  intro k
  induction k with
  | zero => simp [stateAfter, Nat.zero_mod]
  | succ n ih =>
      have hmod : (n % U64 + 1) % U64 = (n + 1) % U64 := by
        have hU : U64 = 18446744073709551616 := by norm_num [U64]
        rw [hU]
        omega
      simp [stateAfter, ih, execOrderStep_default, hmod]

theorem callAt_ordered {α : Type} (resps : List α) (ds : Nat → Nat → Nat) (k : Nat)
    (hk : k < 2 ^ 63) :
    callAt "ordered" ds ⟨0, resps⟩ k = goIndex resps k := by
  have hkU : k < U64 := lt_of_lt_of_le hk (by norm_num [U64])
  unfold callAt
  rw [stateAfter_ordered resps ds k, execOrderStep_default]
  simp only [Nat.mod_eq_of_lt hkU, uintOrder_eq k hkU]

theorem map_goIndex_range_eq {α : Type} (l : List α) (s : Nat) (hl : 0 < l.length)
    (hs : s % l.length = 0) (hbound : s + l.length ≤ 2 ^ 63) :
    (List.range l.length).map (fun k => goIndex l (s + k)) = l.map SelOutcome.selected := by
  apply List.ext_getElem
  · simp
  · intro i h1 h2
    have hiN : i < l.length := by simpa using h1
    have hsi : s + i < 2 ^ 63 := by omega
    have hmod : (s + i) % l.length = i := by
      rw [Nat.add_mod, hs, Nat.zero_add]
      simp [Nat.mod_eq_of_lt hiN]
    have hm : (s + i) % l.length < l.length := by rw [hmod]; exact hiN
    rw [List.getElem_map, List.getElem_map, List.getElem_range,
      goIndex_small l (s + i) hsi hl hm]
    simp [List.get_eq_getElem, hmod]

/-- C6: for the `ordered` (default) policy over a non-empty list of `N`
responses, the `k`-th sequential call (`k` counted from 0 across all
requests hitting the descriptor) selects `list[k mod N]`, and the first
`2N` calls starting from counter 0 reproduce the list twice in its
original order.  (`k` is bounded by `2 ^ 63`, the point at which the Go
`int(order)` conversion of the `uint64` counter would go negative; a run
cannot reach that many calls.) -/
theorem ordered_kth_call_and_two_cycles {α : Type} (resps : List α) (ds : Nat → Nat → Nat)
    (hl : 0 < resps.length) (hbound : 2 * resps.length ≤ 2 ^ 63) :
    (∀ k, k < 2 ^ 63 → ∀ hk : k % resps.length < resps.length,
        callAt "ordered" ds ⟨0, resps⟩ k =
          SelOutcome.selected (resps.get ⟨k % resps.length, hk⟩)) ∧
    callList "ordered" ds ⟨0, resps⟩ (2 * resps.length) =
      (resps ++ resps).map SelOutcome.selected := by
  constructor
  · intro k hk hm
    rw [callAt_ordered resps ds k hk, goIndex_small resps k hk hl hm]
  · unfold callList
    have hcall : ∀ k ∈ List.range (2 * resps.length),
        callAt "ordered" ds ⟨0, resps⟩ k = goIndex resps k := by
      intro k hkmem
      have hk2 : k < 2 * resps.length := List.mem_range.mp hkmem
      exact callAt_ordered resps ds k (by omega)
    rw [List.map_congr_left hcall]
    have hsplit : List.range (2 * resps.length) =
        List.range resps.length ++
          (List.range resps.length).map (fun x => resps.length + x) := by
      rw [two_mul, List.range_add]
    rw [hsplit, List.map_append, List.map_map]
    have h0 : (List.range resps.length).map (fun k => goIndex resps k) =
        resps.map SelOutcome.selected := by
      have h := map_goIndex_range_eq resps 0 hl (by simp) (by omega)
      simpa using h
    have hN : (List.range resps.length).map
        ((fun k => goIndex resps k) ∘ fun x => resps.length + x) =
        resps.map SelOutcome.selected := by
      have h := map_goIndex_range_eq resps resps.length hl (by simp) (by omega)
      simpa [Function.comp] using h
    rw [h0, hN, List.map_append]

/-- Witness for C6: a concrete three-response `ordered` descriptor,
evaluated for six calls, yields the list twice over. -/
theorem ordered_kth_call_and_two_cycles_witness :
    callList "ordered" (fun _ _ => 0) ⟨0, ["a", "b", "c"]⟩ 6 =
      ((["a", "b", "c"] ++ ["a", "b", "c"]).map SelOutcome.selected) :=
  (ordered_kth_call_and_two_cycles ["a", "b", "c"] (fun _ _ => 0) (by norm_num)
    (by norm_num)).2

theorem stateAfter_unordered {α : Type} (l : List α) (ds : Nat → Nat → Nat) (s : Nat)
    (hl : 0 < l.length) (hs : s % l.length = 0) (hbound : s + l.length ≤ 2 ^ 63) :
    ∀ j, 1 ≤ j → j ≤ l.length →
      stateAfter "unordered" ds ⟨s, l⟩ j = ⟨s + j, fisherYates (ds 0) l⟩ := by
  have hUbig : 2 ^ 63 < U64 := by norm_num [U64]
  have hNe : l.length ≠ 0 := Nat.pos_iff_ne_zero.mp hl
  intro j
  induction j with
  | zero => intro h1 _; omega
  | succ j ih =>
      intro _ hj1
      cases Nat.eq_zero_or_pos j with
      | inl hj0 =>
          subst hj0
          have hsU : s < U64 := by omega
          have hs1 : s + 1 < U64 := by omega
          have hcond : goTmodZero s l.length = true := by
            rw [goTmodZero_small (by omega)]
            exact hs
          show (execOrderStep "unordered" (ds 0) ⟨s, l⟩).2 = _
          rw [execOrderStep_unordered_nonempty (ds 0) s l hNe hs1]
          simp [hcond]
      | inr hj1' =>
          have hrec := ih hj1' (by omega)
          have hjlt : j < l.length := by omega
          have hsjU : s + j < U64 := by omega
          have hsj1 : s + j + 1 < U64 := by omega
          have hfylen : (fisherYates (ds 0) l).length = l.length :=
            fisherYates_length (ds 0) l
          have hfyNe : (fisherYates (ds 0) l).length ≠ 0 := by omega
          have hcond : goTmodZero (s + j) (fisherYates (ds 0) l).length = false := by
            rw [Bool.eq_false_iff]
            intro hc
            rw [goTmodZero_small (by omega)] at hc
            rw [hfylen, Nat.add_mod, hs, Nat.zero_add] at hc
            simp [Nat.mod_eq_of_lt hjlt] at hc
            omega
          show (execOrderStep "unordered" (ds j) (stateAfter "unordered" ds ⟨s, l⟩ j)).2 = _
          rw [hrec]
          rw [execOrderStep_unordered_nonempty (ds j) (s + j) (fisherYates (ds 0) l) hfyNe hsj1]
          simp [hcond, Nat.add_assoc]

theorem callAt_unordered {α : Type} (l : List α) (ds : Nat → Nat → Nat) (s : Nat)
    (hl : 0 < l.length) (hs : s % l.length = 0) (hbound : s + l.length ≤ 2 ^ 63) :
    ∀ j, j < l.length →
      callAt "unordered" ds ⟨s, l⟩ j = goIndex (fisherYates (ds 0) l) (s + j) := by
  have hUbig : 2 ^ 63 < U64 := by norm_num [U64]
  have hNe : l.length ≠ 0 := Nat.pos_iff_ne_zero.mp hl
  intro j hjlt
  cases Nat.eq_zero_or_pos j with
  | inl hj0 =>
      subst hj0
      have hsU : s < U64 := by omega
      have hs1 : s + 1 < U64 := by omega
      have hcond : goTmodZero s l.length = true := by
        rw [goTmodZero_small (by omega)]
        exact hs
      show (execOrderStep "unordered" (ds 0) ⟨s, l⟩).1 = _
      rw [execOrderStep_unordered_nonempty (ds 0) s l hNe hs1]
      simp [hcond]
  | inr hj1 =>
      have hrec := stateAfter_unordered l ds s hl hs hbound j hj1 (by omega)
      have hsjU : s + j < U64 := by omega
      have hsj1 : s + j + 1 < U64 := by omega
      have hfylen : (fisherYates (ds 0) l).length = l.length :=
        fisherYates_length (ds 0) l
      have hfyNe : (fisherYates (ds 0) l).length ≠ 0 := by omega
      have hcond : goTmodZero (s + j) (fisherYates (ds 0) l).length = false := by
        rw [Bool.eq_false_iff]
        intro hc
        rw [goTmodZero_small (by omega)] at hc
        rw [hfylen, Nat.add_mod, hs, Nat.zero_add] at hc
        simp [Nat.mod_eq_of_lt hjlt] at hc
        omega
      show (execOrderStep "unordered" (ds j) (stateAfter "unordered" ds ⟨s, l⟩ j)).1 = _
      rw [hrec]
      rw [execOrderStep_unordered_nonempty (ds j) (s + j) (fisherYates (ds 0) l) hfyNe hsj1]
      simp [hcond]

/-- C7: for the `unordered` policy over `N ≥ 1` responses, a block of `N`
consecutive sequential calls beginning at a reshuffle boundary (shared
counter `s` with `s % N = 0`) replays the freshly shuffled list once, and
that block is a permutation of the candidate list: each response is
selected exactly once before the cycle completes.  `ds k` supplies the
random draws consumed by call `k` of the block. -/
theorem unordered_block_is_permutation {α : Type} (l : List α) (ds : Nat → Nat → Nat)
    (s : Nat) (hl : 0 < l.length) (hs : s % l.length = 0)
    (hbound : s + l.length ≤ 2 ^ 63) :
    callList "unordered" ds ⟨s, l⟩ l.length =
      (fisherYates (ds 0) l).map SelOutcome.selected ∧
    List.Perm (callList "unordered" ds ⟨s, l⟩ l.length) (l.map SelOutcome.selected) := by
  have hfylen : (fisherYates (ds 0) l).length = l.length := fisherYates_length (ds 0) l
  have heq : callList "unordered" ds ⟨s, l⟩ l.length =
      (fisherYates (ds 0) l).map SelOutcome.selected := by
    unfold callList
    have hcall : ∀ j ∈ List.range l.length,
        callAt "unordered" ds ⟨s, l⟩ j = goIndex (fisherYates (ds 0) l) (s + j) := by
      intro j hj
      exact callAt_unordered l ds s hl hs hbound j (List.mem_range.mp hj)
    rw [List.map_congr_left hcall]
    have h := map_goIndex_range_eq (fisherYates (ds 0) l) s (by omega)
      (by rw [hfylen]; exact hs) (by omega)
    rw [hfylen] at h
    exact h
  refine ⟨heq, ?_⟩
  rw [heq]
  exact (fisherYates_perm (ds 0) l).map SelOutcome.selected

/-- Witness for C7: a concrete three-response `unordered` descriptor at
the boundary counter 0; the block of three calls is the shuffled list and
a permutation of the original. -/
theorem unordered_block_is_permutation_witness :
    callList "unordered" (fun _ _ => 0) ⟨0, [10, 20, 30]⟩ 3 =
      (fisherYates (fun _ => 0) [10, 20, 30]).map SelOutcome.selected ∧
    List.Perm (callList "unordered" (fun _ _ => 0) ⟨0, [10, 20, 30]⟩ 3)
      ([10, 20, 30].map SelOutcome.selected) :=
  unordered_block_is_permutation [10, 20, 30] (fun _ _ => 0) 0 (by norm_num)
    (by norm_num) (by norm_num)

theorem goIndex_empty {α : Type} (l : List α) (o : Nat) (h : l.length = 0) :
    goIndex l o = SelOutcome.panicked := by
  have hneg : ¬(0 < l.length ∧ 0 ≤ Int.tmod (toInt64 o) (l.length : Int) ∧
      (Int.tmod (toInt64 o) (l.length : Int)).toNat < l.length) := by
    intro hh
    exact absurd hh.1 (by omega)
  unfold goIndex
  rw [dif_neg hneg]

/-- C2 counterexample: for a descriptor whose candidate list is empty,
the selection step does not report a "no candidate" outcome that could be
surfaced as a 404: under all three ordering policies it panics (integer
division by zero for `ordered`/`unordered` indexing, `rand.Int63n(0)` for
`random`), and a panic is not a selected response. -/
theorem empty_candidate_list_panics :
    (execOrderStep "ordered" (fun _ => 0) (⟨0, []⟩ : SeqState Nat)).1 =
      SelOutcome.panicked ∧
    (execOrderStep "unordered" (fun _ => 0) (⟨0, []⟩ : SeqState Nat)).1 =
      SelOutcome.panicked ∧
    (execOrderStep "random" (fun _ => 0) (⟨0, []⟩ : SeqState Nat)).1 =
      SelOutcome.panicked ∧
    ∀ r : Nat, SelOutcome.panicked ≠ SelOutcome.selected r := by
  refine ⟨rfl, rfl, rfl, ?_⟩
  intro r h
  exact SelOutcome.noConfusion h

/-- C2 amended: the selection step never reports a "no candidate"
outcome.  On an empty candidate list every ordering policy panics, and on
a non-empty list (with the shared counter below `2 ^ 63` and at most
`2 ^ 62` candidates, which every real run satisfies) selection is total:
it always yields a selected response. -/
theorem selection_empty_panics_nonempty_total {α : Type} (policy : String)
    (d : Nat → Nat) (st : SeqState α) (hidx : st.idx < 2 ^ 63)
    (hsz : 2 * st.resps.length ≤ 2 ^ 63) :
    (st.resps.length = 0 → (execOrderStep policy d st).1 = SelOutcome.panicked) ∧
    (0 < st.resps.length → ∃ r, (execOrderStep policy d st).1 = SelOutcome.selected r) := by
  have hUbig : 2 ^ 63 < U64 := by norm_num [U64]
  have hcases : execOrderStep policy d st = execOrderRandom d st ∨
      execOrderStep policy d st = execOrderUnordered d st ∨
      execOrderStep policy d st = execOrderDefault d st := by
    unfold execOrderStep
    split
    · exact Or.inl rfl
    · exact Or.inr (Or.inl rfl)
    · exact Or.inr (Or.inr rfl)
  rcases hcases with hco | hco | hco <;> rw [hco]
  · constructor
    · intro h0
      unfold execOrderRandom
      rw [if_pos h0]
    · intro hpos
      have hne : st.resps.length ≠ 0 := by omega
      have ho : d 0 % (2 * st.resps.length) < 2 ^ 63 := by
        have := Nat.mod_lt (d 0) (y := 2 * st.resps.length) (by omega)
        omega
      have hm : d 0 % (2 * st.resps.length) % st.resps.length < st.resps.length :=
        Nat.mod_lt _ hpos
      have hsel := goIndex_small st.resps (d 0 % (2 * st.resps.length)) ho hpos hm
      unfold execOrderRandom
      rw [if_neg hne]
      exact ⟨_, hsel⟩
  · constructor
    · intro h0
      unfold execOrderUnordered
      rw [if_pos h0]
    · intro hpos
      have hne : st.resps.length ≠ 0 := by omega
      have hi1 : st.idx + 1 < U64 := by omega
      have hstep := execOrderUnordered_nonempty d st.idx st.resps hne hi1
      have hst : (⟨st.idx, st.resps⟩ : SeqState α) = st := rfl
      rw [hst] at hstep
      rw [hstep]
      have hlen : (if goTmodZero st.idx st.resps.length then fisherYates d st.resps
          else st.resps).length = st.resps.length := by
        by_cases hc : goTmodZero st.idx st.resps.length <;>
          simp [hc, fisherYates_length]
      have hm : st.idx % (if goTmodZero st.idx st.resps.length then fisherYates d st.resps
          else st.resps).length <
          (if goTmodZero st.idx st.resps.length then fisherYates d st.resps
          else st.resps).length := by
        rw [hlen]
        exact Nat.mod_lt _ hpos
      exact ⟨_, goIndex_small _ st.idx hidx (by omega) hm⟩
  · constructor
    · intro h0
      unfold execOrderDefault
      exact goIndex_empty _ _ h0
    · intro hpos
      have hiU : st.idx < U64 := by omega
      have hm : st.idx % st.resps.length < st.resps.length := Nat.mod_lt _ hpos
      have hsel := goIndex_small st.resps st.idx hidx hpos hm
      unfold execOrderDefault
      rw [uintOrder_eq st.idx hiU]
      exact ⟨_, hsel⟩

/-- Witness for the amended C2 theorem: a concrete non-empty `random`
descriptor yields a selected response. -/
theorem selection_empty_panics_nonempty_total_witness :
    ∃ r, (execOrderStep "random" (fun _ => 5) (⟨0, [1, 2]⟩ : SeqState Nat)).1 =
      SelOutcome.selected r :=
  (selection_empty_panics_nonempty_total "random" (fun _ => 5) ⟨0, [1, 2]⟩
    (by norm_num) (by norm_num)).2 (by norm_num)

/-- The JWT signing configuration of a listener (`configJWT` in
config.go): its name label and algorithm identifier. -/
structure configJWT where
  name : String
  alg : String
deriving DecidableEq, Repr

/-- The signing-key material resolved by `useJWT` for a listener and
stored in request context under `CtxKeySignature`: HMAC secret bytes
(`[]byte`), an RSA private key, or another key type.  For the RSA case we
carry the PEM text that `pem.EncodeToMemory(x509.MarshalPKCS1PrivateKey k)`
produces. -/
inductive KeyMaterial where
  | hmac (secret : String)
  | rsaKey (pem : String)
  | otherKey
deriving DecidableEq, Repr

/-- The string that `marshalJWT`'s `switch k := key.(type)` writes into
the payload: the raw secret for `[]byte`, the PEM text for
`*rsa.PrivateKey`, nothing for other key types. -/
def keyEchoString : KeyMaterial → Option String
  | .hmac s => some s
  | .rsaKey p => some p
  | .otherKey => none

/-- The payload key `"$._internal." + cfgJWT.Name + ".key"` used by
`marshalJWT` (jwt.go). -/
def internalKeyName (cfgName : String) : String := "$._internal." ++ cfgName ++ ".key"

/-- Go map assignment `m[k] = v`.  Go maps are unordered key-value
collections; we model the update as replacing any existing entry for `k`. -/
def mapSet (m : List (String × String)) (k v : String) : List (String × String) :=
  (k, v) :: m.filter fun p => ¬p.1 = k

/-- The names in `jwtSigMap` (jwt.go): the registry of supported signing
algorithms. -/
def jwtSigMap : List String :=
  ["HS256", "HS384", "HS512", "ES256", "ES384", "ES512",
   "RS256", "RS384", "RS512", "PS256", "PS384", "PS512"]

/-- The payload map after `marshalJWT`'s key-injection step
(jwt.go, lines 174-187): for `[]byte` and `*rsa.PrivateKey` keys the
resolved signing key is written into `respJWT.Payload` under
`$._internal.<name>.key`; other key types fall through the switch. -/
def marshalJWTPayload (cfg : configJWT) (payload : List (String × String))
    (key : KeyMaterial) : List (String × String) :=
  match keyEchoString key with
  | some s => mapSet payload (internalKeyName cfg.name) s
  | none => payload

/-- A signed token: its claim set and its signature.  The signature of
the external JWT library is idealized as a binding MAC: it is modeled as
the pair of the signing key and the signed claim set, so verification
succeeds exactly for the same key and claims. -/
structure SignedToken where
  claims : List (String × String)
  sig : KeyMaterial × List (String × String)
deriving DecidableEq, Repr

/-- Function `marshalJWT` (jwt.go, lines 173-195): inject the signing key into the
payload, look the algorithm up in `jwtSigMap` (an unknown algorithm is
the `"no algo found"` error, here `none`), and sign the claim set, which
`responseJWT.MarshalJSON` assembles as the registered-claim fields
(`stdClaims`, the evaluated `sub`/`iss`/... attributes) followed by the
payload map. -/
def marshalJWT (cfg : configJWT) (stdClaims : List (String × String))
    (payload : List (String × String)) (key : KeyMaterial) : Option SignedToken :=
  if cfg.alg ∈ jwtSigMap then
    some ⟨stdClaims ++ marshalJWTPayload cfg payload key,
          (key, stdClaims ++ marshalJWTPayload cfg payload key)⟩
  else none

/-- Outcome of the JWT library's `ParseWithClaims` on a located token
string: `ok` (parsed, signature verified, `token.Valid`), `badSig`
(parsed into a non-nil token but signature or claim verification failed,
non-nil error), or `malformed` (unparseable: nil token and an error). -/
inductive ParseResult where
  | ok (claims : List (String × String))
  | badSig (claims : List (String × String))
  | malformed
deriving DecidableEq, Repr

/-- Modelled from the spec: the external JWT library's parse-and-verify
of a well-formed token produced by this encoder, with the idealized MAC
of `SignedToken`: verification succeeds exactly when the supplied key and
the claim set match the signature. -/
def parseWithKey (t : SignedToken) (k : KeyMaterial) : ParseResult :=
  if t.sig = (k, t.claims) then .ok t.claims else .badSig t.claims

/-- Result of locating the token string in `decodeJWT`'s `switch
reqJWT.Input`: the key was absent (`jwtStr == ""`), found and parsed with
outcome `p`, or the lookup itself errored (missing cookie, invalid
location). -/
inductive LocateResult where
  | absent
  | found (p : ParseResult)
  | locErr
deriving DecidableEq, Repr

/-- What `decodeJWT` (jwt.go, lines 103-169) produces: the returned
`*jwtgo.Token` (its `Valid` flag and claims), the returned error (`some
true` when wrapped as a `WarnError`, `some false` for a plain error), the
`x-jwt-validation` header written to the response, and whether the Go
runtime panicked (`token.Valid` dereferences a nil token). -/
structure DecodeOut where
  token : Option (Bool × List (String × String))
  err : Option Bool
  valHeader : Option String
  panicked : Bool
deriving DecidableEq, Repr

/-- Function `decodeJWT` (jwt.go): locate the token; on a parse error, return it
as-is when `Validate` is nil or false; when `Validate` is true, write
`x-jwt-validation: valid|invalid` from `token.Valid` (a nil token — the
malformed case — panics here) and wrap the error as a `WarnError`. -/
def decodeJWT (validate : Option Bool) (loc : LocateResult) : DecodeOut :=
  match loc with
  | .locErr => ⟨none, some false, none, false⟩
  | .absent => ⟨none, none, none, false⟩
  | .found p =>
    match p with
    | .ok cl =>
        if validate = some true then ⟨some (true, cl), none, some "valid", false⟩
        else ⟨some (true, cl), none, none, false⟩
    | .badSig cl =>
        if validate = some true then ⟨some (false, cl), some true, some "invalid", false⟩
        else ⟨some (false, cl), some false, none, false⟩
    | .malformed =>
        if validate = some true then ⟨none, none, none, true⟩
        else ⟨none, some false, none, false⟩

/-- How the request fares in the JWT middleware: processing continues to
the next handler, the request is aborted with an error response, or the
handler goroutine panics. -/
inductive ReqOutcome where
  | proceeds
  | aborts
  | panics
deriving DecidableEq, Repr

/-- The claim-equality loop of `checkRequestJWT`: every string claim that
has a configured expected value in `req.JWT.KeyVals` must equal it. -/
def claimsMatch (keyVals : List (String × String))
    (claims : List (String × String)) : Bool :=
  claims.all fun p =>
    match keyVals.lookup p.1 with
    | some v => p.2 = v
    | none => true

/-- Middleware `checkRequestJWT` (handler.cors.go, lines 100-130): decode the token;
a non-`WarnError` error aborts (`ErrMarshalJWT`); then the claim-equality
loop runs over `token.Claims` (a nil token panics here) and a mismatch
aborts with `ErrInvalidJWTClaim`; otherwise the request proceeds with the
token in context.  The second component is the `x-jwt-validation` header
value on the response. -/
def checkRequestJWT (validate : Option Bool) (keyVals : List (String × String))
    (loc : LocateResult) : ReqOutcome × Option String :=
  let d := decodeJWT validate loc
  if d.panicked then (.panics, d.valHeader)
  else
    match d.err with
    | some false => (.aborts, d.valHeader)
    | _ =>
      match d.token with
      | none => (.panics, d.valHeader)
      | some (_, cl) =>
          if claimsMatch keyVals cl then (.proceeds, d.valHeader)
          else (.aborts, d.valHeader)

theorem checkRequestJWT_snd (v : Option Bool) (kv : List (String × String))
    (loc : LocateResult) :
    (checkRequestJWT v kv loc).2 = (decodeJWT v loc).valHeader := by
  unfold checkRequestJWT
  by_cases hp : (decodeJWT v loc).panicked
  · simp [hp]
  · rcases herr : (decodeJWT v loc).err with _ | b
    · rcases htok : (decodeJWT v loc).token with _ | pr
      · simp [hp, herr, htok]
      · obtain ⟨b2, cl⟩ := pr
        by_cases hc : claimsMatch kv cl <;> simp [hp, herr, htok, hc]
    · cases b
      · simp [hp, herr]
      · rcases htok : (decodeJWT v loc).token with _ | pr
        · simp [hp, herr, htok]
        · obtain ⟨b2, cl⟩ := pr
          by_cases hc : claimsMatch kv cl <;> simp [hp, herr, htok, hc]

theorem decodeJWT_header_only_when_validate (v : Option Bool) (loc : LocateResult) :
    (decodeJWT v loc).valHeader ≠ none → v = some true := by
  intro h
  by_cases hv : v = some true
  · exact hv
  · exfalso
    rcases loc with _ | p | _
    · simp [decodeJWT] at h
    · rcases p with cl | cl | _ <;> simp [decodeJWT, hv] at h
    · simp [decodeJWT] at h

/-- C3: when inbound validation is explicitly requested (`Validate` set
to true) and the located token decodes but fails to verify, the request
is not aborted: the response carries `x-jwt-validation: invalid` and
processing continues (given the configured claim-equality constraints
pass, e.g. none are configured); a hard decode failure (malformed token)
when a token was expected never lets the request proceed; and the
`x-jwt-validation` header is emitted only when validation was explicitly
requested. -/
theorem checkRequestJWT_tolerates_and_flags (keyVals claims : List (String × String))
    (hmatch : claimsMatch keyVals claims = true) :
    checkRequestJWT (some true) keyVals (.found (.badSig claims)) =
      (ReqOutcome.proceeds, some "invalid") ∧
    (∀ (validate : Option Bool) (kv : List (String × String)),
        (checkRequestJWT validate kv (.found .malformed)).1 ≠ ReqOutcome.proceeds) ∧
    (∀ (validate : Option Bool) (kv : List (String × String)) (loc : LocateResult),
        (checkRequestJWT validate kv loc).2 ≠ none → validate = some true) := by
  refine ⟨?_, ?_, ?_⟩
  · simp [checkRequestJWT, decodeJWT, hmatch]
  · intro validate kv
    rcases validate with _ | b
    · simp [checkRequestJWT, decodeJWT]
    · cases b <;> simp [checkRequestJWT, decodeJWT]
  · intro validate kv loc h
    rw [checkRequestJWT_snd] at h
    exact decodeJWT_header_only_when_validate validate loc h

/-- Witness for C3: with no claim constraints configured, an invalid
signature under requested validation proceeds with the `invalid` header. -/
theorem checkRequestJWT_tolerates_and_flags_witness :
    checkRequestJWT (some true) [] (.found (.badSig [("sub", "x")])) =
      (ReqOutcome.proceeds, some "invalid") :=
  (checkRequestJWT_tolerates_and_flags [] [("sub", "x")] (by decide)).1

/-- C8: for every claim set and signing key of a supported algorithm,
decoding a token produced by the encoder with the same key succeeds and
recovers exactly the claims that were encoded (the registered claims
followed by the key-injected payload), and decoding with any different
key is rejected as invalid. -/
theorem marshalJWT_roundtrip (cfg : configJWT) (stdClaims payload : List (String × String))
    (key : KeyMaterial) (t : SignedToken)
    (henc : marshalJWT cfg stdClaims payload key = some t) :
    t.claims = stdClaims ++ marshalJWTPayload cfg payload key ∧
    parseWithKey t key = ParseResult.ok t.claims ∧
    ∀ k2 : KeyMaterial, k2 ≠ key → parseWithKey t k2 = ParseResult.badSig t.claims := by
  unfold marshalJWT at henc
  by_cases halg : cfg.alg ∈ jwtSigMap
  · rw [if_pos halg] at henc
    have ht : t = ⟨stdClaims ++ marshalJWTPayload cfg payload key,
        (key, stdClaims ++ marshalJWTPayload cfg payload key)⟩ :=
      (Option.some.injEq _ _ ▸ henc).symm
    subst ht
    refine ⟨rfl, ?_, ?_⟩
    · simp [parseWithKey]
    · intro k2 hk2
      simp [parseWithKey, Prod.ext_iff]
      intro he
      exact absurd he.symm hk2
  · rw [if_neg halg] at henc
    exact absurd henc (by simp)

/-- Witness for C8: a concrete HS256 round-trip; the right key recovers
the encoded claims, a wrong key is rejected. -/
theorem marshalJWT_roundtrip_witness :
    parseWithKey
      ⟨[("sub", "s"), ("$._internal.test-1.key", "pw")],
       (KeyMaterial.hmac "pw", [("sub", "s"), ("$._internal.test-1.key", "pw")])⟩
      (KeyMaterial.hmac "pw") =
      ParseResult.ok [("sub", "s"), ("$._internal.test-1.key", "pw")] ∧
    parseWithKey
      ⟨[("sub", "s"), ("$._internal.test-1.key", "pw")],
       (KeyMaterial.hmac "pw", [("sub", "s"), ("$._internal.test-1.key", "pw")])⟩
      (KeyMaterial.hmac "other") =
      ParseResult.badSig [("sub", "s"), ("$._internal.test-1.key", "pw")] := by
  have h := marshalJWT_roundtrip ⟨"test-1", "HS256"⟩ [("sub", "s")] []
    (KeyMaterial.hmac "pw")
    ⟨[("sub", "s"), ("$._internal.test-1.key", "pw")],
     (KeyMaterial.hmac "pw", [("sub", "s"), ("$._internal.test-1.key", "pw")])⟩
    (by decide)
  exact ⟨h.2.1, h.2.2 (KeyMaterial.hmac "other") (by decide)⟩

theorem lookup_filter_ne (k k2 : String) (h : k2 ≠ k) :
    ∀ m : List (String × String),
      List.lookup k2 (m.filter fun p => ¬p.1 = k) = List.lookup k2 m := by
  intro m
  induction m with
  | nil => rfl
  | cons a t ih =>
      obtain ⟨a1, a2⟩ := a
      simp only [decide_not] at ih
      by_cases ha : a1 = k
      · subst ha
        have hne : (k2 == a1) = false := by
          simp only [beq_eq_false_iff_ne]
          exact h
        simp [List.filter_cons, List.lookup, hne, ih, decide_not]
      · by_cases hk2 : k2 = a1
        · subst hk2
          simp [List.filter_cons, ha, List.lookup, decide_not]
        · have hne : (k2 == a1) = false := by
            simp only [beq_eq_false_iff_ne]
            exact hk2
          simp [List.filter_cons, ha, List.lookup, hne, ih, decide_not]

theorem lookup_mapSet_self (m : List (String × String)) (k v : String) :
    List.lookup k (mapSet m k v) = some v := by
  simp [mapSet, List.lookup]

theorem lookup_mapSet_ne (m : List (String × String)) (k v k2 : String) (h : k2 ≠ k) :
    List.lookup k2 (mapSet m k v) = List.lookup k2 m := by
  have hne : (k2 == k) = false := by
    simp only [beq_eq_false_iff_ne]
    exact h
  simp only [mapSet, List.lookup, hne]
  exact lookup_filter_ne k k2 h m

/-- C1 counterexample: with an empty configured payload (which certainly
does not reference the key), two runs of the encoder differing only in
the HMAC signing-key bytes produce different claim sets — `marshalJWT`
itself writes the key into the payload under `$._internal.<name>.key`,
so the key is echoed into the signed token without the configuration
placing it there. -/
theorem signing_key_echoed_counterexample :
    marshalJWTPayload ⟨"test-1", "HS256"⟩ [] (KeyMaterial.hmac "key-one") ≠
      marshalJWTPayload ⟨"test-1", "HS256"⟩ [] (KeyMaterial.hmac "key-two") ∧
    List.lookup "$._internal.test-1.key"
      (marshalJWTPayload ⟨"test-1", "HS256"⟩ [] (KeyMaterial.hmac "key-one")) =
      some "key-one" ∧
    marshalJWT ⟨"test-1", "HS256"⟩ [] [] (KeyMaterial.hmac "key-one") ≠
      marshalJWT ⟨"test-1", "HS256"⟩ [] [] (KeyMaterial.hmac "key-two") := by
  refine ⟨by decide, by decide, ?_⟩
  intro h
  simp [marshalJWT, jwtSigMap] at h

/-- C1 amended: `marshalJWT` always injects the resolved signing key into
the outbound payload under `$._internal.<cfg name>.key` for HMAC and RSA
keys (so the emitted claim set does depend on the signing-key bytes even
when the configured payload does not reference the key), and that
injected entry is the only key-dependent part of the payload: every other
claim name resolves identically under any two signing keys. -/
theorem marshalJWT_key_injection (cfg : configJWT) (payload : List (String × String))
    (k1 k2 : KeyMaterial) (claimName : String)
    (hname : claimName ≠ internalKeyName cfg.name) :
    List.lookup claimName (marshalJWTPayload cfg payload k1) =
      List.lookup claimName (marshalJWTPayload cfg payload k2) ∧
    (∀ sec : String, List.lookup (internalKeyName cfg.name)
        (marshalJWTPayload cfg payload (KeyMaterial.hmac sec)) = some sec) := by
  constructor
  · have hside : ∀ k : KeyMaterial,
        List.lookup claimName (marshalJWTPayload cfg payload k) =
          List.lookup claimName payload := by
      intro k
      cases k <;>
        simp [marshalJWTPayload, keyEchoString,
          lookup_mapSet_ne payload (internalKeyName cfg.name) _ claimName hname]
    rw [hside k1, hside k2]
  · intro sec
    simp [marshalJWTPayload, keyEchoString, lookup_mapSet_self]

/-- Witness for the amended C1 theorem at a concrete configuration. -/
theorem marshalJWT_key_injection_witness :
    List.lookup "aud" (marshalJWTPayload ⟨"test-1", "HS256"⟩ [("aud", "b")]
      (KeyMaterial.hmac "x")) =
      List.lookup "aud" (marshalJWTPayload ⟨"test-1", "HS256"⟩ [("aud", "b")]
        (KeyMaterial.rsaKey "y")) ∧
    (∀ sec : String, List.lookup (internalKeyName "test-1")
        (marshalJWTPayload ⟨"test-1", "HS256"⟩ [("aud", "b")]
          (KeyMaterial.hmac sec)) = some sec) :=
  marshalJWT_key_injection ⟨"test-1", "HS256"⟩ [("aud", "b")] (KeyMaterial.hmac "x")
    (KeyMaterial.rsaKey "y") "aud" (by decide)

/-- Go's `^` operator on integers is bitwise XOR, not exponentiation. -/
def goXor (a b : Nat) : Nat := Nat.xor a b

/-- The limit expression `(2^20)*10` from
`ioutil.ReadAll(io.LimitReader(st.r.Body, (2^20)*10))` in
`execVarCtxRequest` (handler.http.go, line 444), whose comment reads
"10MB limit". -/
def requestBodyLimit : Nat := goXor 2 20 * 10

/-- State `execVarCtxRequest` (handler.http.go, lines 437-456): for a non-POST
request the `request` variable is nil; for POST, the body exposed to
templates as `request.body` is what `io.LimitReader` yields — the first
`requestBodyLimit` bytes. -/
def execVarCtxRequestBody (method : String) (body : List Char) : Option (List Char) :=
  if method ≠ "POST" then none
  else some (body.take requestBodyLimit)

/-- C9: the `request.body` template variable of a POST request is
truncated to at most 220 bytes: Go's `^` is XOR, so `(2^20)*10` is
`(2 XOR 20) * 10 = 22 * 10 = 220`, not the 10MB the comment claims. -/
theorem post_body_truncated_to_220 :
    requestBodyLimit = 220 ∧
    requestBodyLimit ≠ 2 ^ 20 * 10 ∧
    ∀ body : List Char,
      execVarCtxRequestBody "POST" body = some (body.take 220) ∧
      (body.take 220).length = min 220 body.length := by
  refine ⟨rfl, by decide, ?_⟩
  intro body
  constructor
  · rfl
  · simp [List.length_take]

/-- Per-key matching count of `checkRequestHeader`'s inner loops: `chk`
is decremented once for every pair of a declared value `v1` and a request
value `v2` with `v1 == "*" || v1 == v2`. -/
def matchCount (vals values : List String) : Nat :=
  (vals.map fun v1 => (values.filter fun v2 => v1 = "*" ∨ v1 = v2).length).sum

/-- Middleware `checkRequestHeader` (handler.cors.go, lines 133-163): for each
declared header key, compare value-list lengths, then require the match
count to bring `chk` (a Go `int`, so compared as an integer) to exactly
zero, returning a 404 `ErrFilterFailed` otherwise; `next.ServeHTTP(w, r)`
is invoked inside the loop body, once per successfully checked key.
Returns how many times the downstream handler ran and whether an error
was returned. -/
def checkRequestHeader (data : List (String × List String))
    (reqHeader : String → List String) : Nat × Bool :=
  match data with
  | [] => (0, false)
  | (k, vals) :: rest =>
      if vals.length ≠ (reqHeader k).length then (0, true)
      else if (vals.length : Int) - (matchCount vals (reqHeader k) : Int) ≠ 0 then
        (0, true)
      else
        ((checkRequestHeader rest reqHeader).1 + 1,
         (checkRequestHeader rest reqHeader).2)

/-- C10: the downstream handler is invoked inside `checkRequestHeader`'s
loop over declared keys, so when the filter returns no error the handler
has run once per declared key: zero times for an empty required-header
map (the client gets an empty 200 response), and `K` times — duplicating
the response — for `K` matching keys. -/
theorem checkRequestHeader_runs_inside_loop (data : List (String × List String))
    (reqHeader : String → List String)
    (hok : (checkRequestHeader data reqHeader).2 = false) :
    (checkRequestHeader data reqHeader).1 = data.length := by
  induction data with
  | nil => rfl
  | cons a rest ih =>
      obtain ⟨k, vals⟩ := a
      unfold checkRequestHeader at hok ⊢
      by_cases h1 : vals.length ≠ (reqHeader k).length
      · rw [if_pos h1] at hok
        exact absurd hok (by simp)
      · rw [if_neg h1] at hok ⊢
        by_cases h2 : (vals.length : Int) - (matchCount vals (reqHeader k) : Int) ≠ 0
        · rw [if_pos h2] at hok
          exact absurd hok (by simp)
        · rw [if_neg h2] at hok ⊢
          simp only [List.length_cons]
          rw [ih hok]

/-- Witness for C10: two matching declared keys run the downstream
handler twice; an empty declared map never runs it. -/
theorem checkRequestHeader_runs_inside_loop_witness :
    (checkRequestHeader [("a", ["1"]), ("b", ["2"])]
      (fun k => if k = "a" then ["1"] else ["2"])).1 = 2 ∧
    (checkRequestHeader [] (fun _ => [])).1 = 0 :=
  ⟨checkRequestHeader_runs_inside_loop [("a", ["1"]), ("b", ["2"])]
      (fun k => if k = "a" then ["1"] else ["2"]) (by decide),
   checkRequestHeader_runs_inside_loop [] (fun _ => []) (by decide)⟩

/-- Result of one candidate's handler chain on a request: a successful
response, a 404-class `Ext404Error` (these implement `RetryError`), or
another error (400/401/500-class, which only implement
`HandlerError.ErrorResponseWriter`). -/
inductive HandlerResult (ρ : Type) where
  | ok (resp : ρ)
  | notFound
  | failed (code : Nat)
deriving DecidableEq, Repr

/-- The final outcome `WriteError` (errors.go) leaves on the wire. -/
inductive FinalResult (ρ : Type) where
  | response (resp : ρ)
  | notFound404
  | errorResponse (code : Nat)
deriving DecidableEq, Repr

/-- Functions `WriteError` and `Ext404Error.ErrorRetryRequestWriter` (errors.go,
lines 196-206): run the current candidate; on an `Ext404Error`, pop the
head of the retry list carried in request context (`CtxKeyRetries`),
re-bind the shortened list, and serve that candidate; an empty retry list
falls through to `ErrorResponseWriter`'s plain "404 page not found".
Returns the final outcome together with the list of candidate indices
attempted, in order; `i` is the index of the current head candidate. -/
def serveAux {ρ σ : Type} (req : σ) :
    List (σ → HandlerResult ρ) → Nat → FinalResult ρ × List Nat
  | [], _ => (.notFound404, [])
  | h :: rest, i =>
      match h req with
      | .ok r => (.response r, [i])
      | .failed c => (.errorResponse c, [i])
      | .notFound =>
          ((serveAux req rest (i + 1)).1, i :: (serveAux req rest (i + 1)).2)

/-- The mounting in `_http` (http.go, lines 444-452): for each method the
first collected handler is mounted, wrapped in `checkRetries` carrying
the remaining handlers as the retry list. -/
def serveMulti {ρ σ : Type} (hs : List (σ → HandlerResult ρ)) (req : σ) :
    FinalResult ρ × List Nat :=
  serveAux req hs 0

theorem serveAux_attempts_range {ρ σ : Type} (req : σ) :
    ∀ (hs : List (σ → HandlerResult ρ)) (i : Nat),
      ∃ k, k ≤ hs.length ∧ (serveAux req hs i).2 = List.range' i k := by
  intro hs
  induction hs with
  | nil => intro i; exact ⟨0, by simp, rfl⟩
  | cons h rest ih =>
      intro i
      cases hh : h req with
      | ok r => exact ⟨1, by simp, by simp [serveAux, hh, List.range']⟩
      | failed c => exact ⟨1, by simp, by simp [serveAux, hh, List.range']⟩
      | notFound =>
          obtain ⟨k, hk, he⟩ := ih (i + 1)
          refine ⟨k + 1, by simp; omega, ?_⟩
          simp [serveAux, hh, he, List.range'_succ]

theorem serveAux_head {ρ σ : Type} (req : σ) (h : σ → HandlerResult ρ)
    (rest : List (σ → HandlerResult ρ)) (i : Nat) :
    ∃ t, (serveAux req (h :: rest) i).2 = i :: t := by
  cases hh : h req with
  | ok r => exact ⟨[], by simp [serveAux, hh]⟩
  | failed c => exact ⟨[], by simp [serveAux, hh]⟩
  | notFound => exact ⟨(serveAux req rest (i + 1)).2, by simp [serveAux, hh]⟩

theorem serveAux_notFound_all_tried {ρ σ : Type} (req : σ) :
    ∀ (hs : List (σ → HandlerResult ρ)) (i : Nat),
      (serveAux req hs i).1 = FinalResult.notFound404 →
      (serveAux req hs i).2 = List.range' i hs.length := by
  intro hs
  induction hs with
  | nil => intro i _; rfl
  | cons h rest ih =>
      intro i hnf
      cases hh : h req with
      | ok r => simp [serveAux, hh] at hnf
      | failed c => simp [serveAux, hh] at hnf
      | notFound =>
          simp only [serveAux, hh] at hnf ⊢
          rw [ih (i + 1) hnf]
          simp [List.range'_succ]

/-- C4: when a path has multiple RequestDescriptors for the same method,
a "not found"-class outcome from the mounted candidate causes the next
registered candidate to be tried (the retry list in request context is
popped on each attempt), no candidate is ever tried twice for one
request, and a true 404 is returned only after every candidate has been
tried exactly once. -/
theorem retry_pops_and_tries_next {ρ σ : Type} (req : σ)
    (h0 : σ → HandlerResult ρ) (rest : List (σ → HandlerResult ρ))
    (hnf : h0 req = HandlerResult.notFound) (hrest : rest ≠ []) :
    (∀ hs : List (σ → HandlerResult ρ), (serveMulti hs req).2.Nodup) ∧
    (serveMulti (h0 :: rest) req).2.head? = some 0 ∧
    1 ∈ (serveMulti (h0 :: rest) req).2 ∧
    ((serveMulti (h0 :: rest) req).1 = FinalResult.notFound404 →
      (serveMulti (h0 :: rest) req).2 = List.range' 0 (rest.length + 1)) := by
  refine ⟨?_, ?_, ?_, ?_⟩
  · intro hs
    obtain ⟨k, _, he⟩ := serveAux_attempts_range req hs 0
    rw [serveMulti, he]
    exact List.nodup_range' 0 k
  · obtain ⟨t, ht⟩ := serveAux_head req h0 rest 0
    rw [serveMulti, ht]
    rfl
  · obtain ⟨h1, rest1, hr⟩ := List.exists_cons_of_ne_nil hrest
    subst hr
    obtain ⟨t, ht⟩ := serveAux_head req h1 rest1 1
    show 1 ∈ (serveAux req (h0 :: h1 :: rest1) 0).2
    have hstep : (serveAux req (h0 :: h1 :: rest1) 0).2 =
        0 :: (serveAux req (h1 :: rest1) 1).2 := by
      simp only [serveAux, hnf]
    rw [hstep, ht]
    simp
  · intro hend
    exact serveAux_notFound_all_tried req (h0 :: rest) 0 hend

/-- Witness for C4: a first candidate that 404s falls through to a second
candidate, which is attempted next. -/
theorem retry_pops_and_tries_next_witness :
    (serveMulti [fun _ => HandlerResult.notFound, fun _ => HandlerResult.ok 42]
      ()).2.head? = some 0 ∧
    1 ∈ (serveMulti [fun _ => HandlerResult.notFound, fun _ => HandlerResult.ok 42]
      ()).2 := by
  have h := retry_pops_and_tries_next () (fun _ => HandlerResult.notFound)
    [fun _ => HandlerResult.ok 42] rfl (by simp)
  exact ⟨h.2.1, h.2.2.1⟩

/-- A loaded configuration as the route/listener tables the serving loop
cares about: the `http` server blocks and the `path` route blocks
(`config.Servers`, `config.Routes`). -/
structure Snapshot where
  servers : List String
  routes : List String
deriving DecidableEq, Repr

/-- Outcome of `hclsimple.DecodeFile` on the configuration file. -/
inductive LoadResult where
  | ok (cfg : Snapshot)
  | fail (msg : String)
deriving DecidableEq, Repr

/-- One pass of the `run` loop (main.go, lines 76-110) from decode to
serve.  `mgr` is the `reloadSliceManager` snapshot saved by the previous
successful pass (`isReload()` is `len(rs.s) > 0`: a previous snapshot
with at least one `http` block exists); `errs` are the failure records
already persisted by `reloadError.save` (reload.go), each a timestamped
file.  On a decode failure: `log.Fatalf` when not a reload (`none`);
otherwise save the timestamped error, clear `svrCfgLoadValid` and put the
old snapshot back.  Returns the snapshot served by `_http`, the
`svrCfgLoadValid` flag it sees, and the error records. -/
def reloadIteration (mgr : Snapshot) (r : LoadResult) (now : Nat)
    (errs : List (Nat × String)) : Option (Snapshot × Bool × List (Nat × String)) :=
  match r with
  | .ok cfg => some (cfg, true, errs)
  | .fail msg =>
      if mgr.servers.isEmpty then none
      else some (mgr, false, (now, msg) :: errs)

/-- The header block `reloadError.headers` (reload.go, lines 225-238)
adds through repeated `w.Header().Add("x-reload-error", ...)` calls:
delimiters, start/reload timestamps, uptime, the word-wrapped
explanation, and the pointer to `/_internal/reload/errors`. -/
def xReloadErrorLines (started reloaded uptime hostname : String) :
    List (String × String) :=
  [("x-reload-error", "------------------------------------------------------------"),
   ("x-reload-error", started),
   ("x-reload-error", reloaded),
   ("x-reload-error", uptime),
   ("x-reload-error",
    "The server configuration has not been applied after the most recent update due to an error, please check the configuration and try the reload again."),
   ("x-reload-error", "------------------------------------------------------------"),
   ("x-reload-error", "for errors see: " ++ hostname ++ "/_internal/reload/errors")]

/-- The middleware `_http` installs only when
`config.internal.svrCfgLoadValid` is false (http.go, lines 485-496): the
headers of every response get the `x-reload-error` block prepended. -/
def responseHeaders (valid : Bool) (started reloaded uptime hostname : String)
    (base : List (String × String)) : List (String × String) :=
  if valid then base else xReloadErrorLines started reloaded uptime hostname ++ base

/-- C5: a configuration reload that fails to parse leaves the server
answering with the pre-reload snapshot, records the timestamped failure,
and marks the state invalid so every response carries `x-reload-error`
headers; a later successful reload restores the valid state, whose
responses carry no such header; and a parse failure with no previous
snapshot (first startup) is fatal. -/
theorem reload_failure_fallback_and_recovery (prev cfg2 : Snapshot) (msg : String)
    (now now2 : Nat) (errs : List (Nat × String)) (base : List (String × String))
    (started reloaded uptime hostname : String)
    (hprev : prev.servers ≠ [])
    (hbase : "x-reload-error" ∉ base.map Prod.fst) :
    reloadIteration prev (.fail msg) now errs =
      some (prev, false, (now, msg) :: errs) ∧
    "x-reload-error" ∈
      (responseHeaders false started reloaded uptime hostname base).map Prod.fst ∧
    reloadIteration prev (.ok cfg2) now2 ((now, msg) :: errs) =
      some (cfg2, true, (now, msg) :: errs) ∧
    "x-reload-error" ∉
      (responseHeaders true started reloaded uptime hostname base).map Prod.fst ∧
    ∀ rts : List String,
      reloadIteration ⟨[], rts⟩ (.fail msg) now errs = none := by
  refine ⟨?_, ?_, rfl, ?_, ?_⟩
  · have hne : prev.servers.isEmpty = false := by
      rw [List.isEmpty_eq_false]
      exact hprev
    simp [reloadIteration, hne]
  · simp [responseHeaders, xReloadErrorLines]
  · simpa [responseHeaders] using hbase
  · intro rts
    rfl

/-- Witness for C5 at a concrete one-listener snapshot. -/
theorem reload_failure_fallback_and_recovery_witness :
    reloadIteration ⟨["server-1"], ["route-a"]⟩ (.fail "bad hcl") 17 [] =
      some (⟨["server-1"], ["route-a"]⟩, false, [(17, "bad hcl")]) ∧
    "x-reload-error" ∈
      (responseHeaders false "t0" "t1" "5m" "http://h" [("content-type", "a")]).map
        Prod.fst ∧
    reloadIteration ⟨["server-1"], ["route-a"]⟩
        (.ok ⟨["server-1"], ["route-b"]⟩) 18 [(17, "bad hcl")] =
      some (⟨["server-1"], ["route-b"]⟩, true, [(17, "bad hcl")]) ∧
    "x-reload-error" ∉
      (responseHeaders true "t0" "t1" "5m" "http://h" [("content-type", "a")]).map
        Prod.fst ∧
    ∀ rts : List String,
      reloadIteration ⟨[], rts⟩ (.fail "bad hcl") 17 [] = none :=
  reload_failure_fallback_and_recovery ⟨["server-1"], ["route-a"]⟩
    ⟨["server-1"], ["route-b"]⟩ "bad hcl" 17 18 [] [("content-type", "a")]
    "t0" "t1" "5m" "http://h" (by decide) (by decide)
